import Mathlib

/-!
Formal model of the NDVI land-surface extraction pipeline implemented in
`src/qgis/code_de_surface.py` of the NASASpaceApp2025 repository, together
with theorems checking the behaviour stated in the specification.

Modelling conventions:

* a raster cell holds an `Option ℚ`: `none` stands for a non-finite float
  (NaN or ±Inf), `some v` for the finite value `v`; float arithmetic is
  idealised as exact rational arithmetic, and NaN-producing operations
  (0/0 division, arithmetic on NaN) are modelled by returning `none`;
* a binary mask is the `Finset (ℤ × ℤ)` of its true pixels, inside the
  rectangular domain of an `h × w` grid;
* external library routines that the script merely forwards to
  (`rasterio.warp.reproject`, `scipy.ndimage.zoom`,
  `skimage.filters.threshold_otsu`, `rasterio.features.shapes`,
  `geopandas.GeoDataFrame.to_crs`, shapely's planar area) are taken as
  function parameters of the model, while the routines whose exact
  behaviour the script's logic depends on (median smoothing, binary
  morphology, connected-component labelling, small-object and small-hole
  removal, the `np.bincount` per-label statistics) are modelled concretely
  from their documented semantics.
-/

/-- A pixel position: (row, column) as integers. -/
abbrev Pos := ℤ × ℤ

/-- A binary mask: the finite set of its true pixels. -/
abbrev Mask := Finset Pos

/-- The rectangular pixel domain of an `h × w` raster. -/
def gridDom (h w : ℕ) : Mask :=
  Finset.Icc 0 ((h : ℤ) - 1) ×ˢ Finset.Icc 0 ((w : ℤ) - 1)

/-- 4-connectivity adjacency of pixels (`connectivity=1` in skimage). -/
def adj4 (p q : Pos) : Prop :=
  (p.1 = q.1 ∧ (q.2 = p.2 + 1 ∨ q.2 = p.2 - 1)) ∨
  (p.2 = q.2 ∧ (q.1 = p.1 + 1 ∨ q.1 = p.1 - 1))

instance adj4.instDecidable (p q : Pos) : Decidable (adj4 p q) := by
  unfold adj4; infer_instance

/-- One step of connected-component growth inside the set `A`: add every
pixel of `A` adjacent to the current front `S`. -/
def compGrow (A S : Mask) : Mask :=
  S ∪ A.filter (fun q => ∃ r ∈ S, adj4 r q)

/-- The 4-connected component of `A` containing `p` (empty if `p ∉ A`),
computed by saturating `compGrow` — this models the label regions produced
by `skimage.measure.label(·, connectivity=1)`. -/
def comp (A : Mask) (p : Pos) : Mask :=
  (compGrow A)^[A.card] (A ∩ {p})

/-- Reachability by 4-connected steps staying inside `A` (the relation whose
equivalence classes on `A` are the label regions). -/
def ReachIn (A : Mask) : Pos → Pos → Prop :=
  Relation.ReflTransGen (fun a b => b ∈ A ∧ adj4 a b)

/-- Model of `skimage.morphology.disk(r)`: offsets `(i, j)` with `i² + j² ≤ r²`.
`diskSE 1` is the 3×3 cross, which is also the default footprint
(`ndi.generate_binary_structure(2, 1)`) used by `binary_opening(mask)` when
no footprint is passed. -/
def diskSE (r : ℕ) : Finset Pos :=
  (Finset.Icc (-(r : ℤ)) r ×ˢ Finset.Icc (-(r : ℤ)) r).filter
    (fun o => o.1 ^ 2 + o.2 ^ 2 ≤ (r : ℤ) ^ 2)

/-- Binary erosion on the domain `d` (skimage convention: pixels outside the
image are treated as true, `border_value=True`). -/
def erodeM (d : Mask) (se : Finset Pos) (A : Mask) : Mask :=
  d.filter (fun p => ∀ o ∈ se, (p.1 + o.1, p.2 + o.2) ∈ d → (p.1 + o.1, p.2 + o.2) ∈ A)

/-- Binary dilation on the domain `d` (skimage convention: pixels outside the
image are treated as false, `border_value=False`; the structuring elements
used by the script are symmetric, so reflection is immaterial). -/
def dilateM (d : Mask) (se : Finset Pos) (A : Mask) : Mask :=
  d.filter (fun p => ∃ o ∈ se, (p.1 - o.1, p.2 - o.2) ∈ A)

/-- Model of `skimage.morphology.binary_opening`: erosion then dilation. -/
def binary_opening (d : Mask) (se : Finset Pos) (A : Mask) : Mask :=
  dilateM d se (erodeM d se A)

/-- Model of `skimage.morphology.binary_closing`: dilation then erosion. -/
def binary_closing (d : Mask) (se : Finset Pos) (A : Mask) : Mask :=
  erodeM d se (dilateM d se A)

/-- Model of `skimage.morphology.remove_small_objects(A, min_size)`: drop every
4-connected component with strictly fewer than `minSize` pixels. -/
def remove_small_objects (A : Mask) (minSize : ℕ) : Mask :=
  A.filter (fun p => minSize ≤ (comp A p).card)

/-- Model of `skimage.morphology.remove_small_holes(A, area_threshold)`: fill every
4-connected component of the complement with strictly fewer than `thr`
pixels (implemented in skimage as small-object removal on the complement). -/
def remove_small_holes (d : Mask) (A : Mask) (thr : ℕ) : Mask :=
  d \ remove_small_objects (d \ A) thr

/-- Index reflection at the array border, the default `mode='reflect'` of
`scipy.ndimage.median_filter` (single reflection, enough for windows no
larger than the array). -/
def reflectIdx (n : ℕ) (i : ℤ) : ℤ :=
  if i < 0 then -1 - i else if (n : ℤ) ≤ i then 2 * n - 1 - i else i

/-- The `k × k` window offsets of a size-`k` filter centered at the origin
(rows then columns, offsets `-(k/2) … k - k/2 - 1`). -/
def winOffsets (k : ℕ) : List (ℤ × ℤ) :=
  (List.range k).flatMap
    (fun i => (List.range k).map (fun j => ((i : ℤ) - (k : ℤ) / 2, (j : ℤ) - (k : ℤ) / 2)))

/-- Total order used to sort window values: finite values by `≤`, with
non-finite values (NaN) greatest, as in numpy sorting. scipy's rank filter
leaves the order of NaN unspecified; no theorem below depends on this
choice, which only fixes a concrete executable model. -/
def optLeN (a b : Option ℚ) : Bool :=
  match a, b with
  | none, none => true
  | none, some _ => false
  | some _, none => true
  | some x, some y => decide (x ≤ y)

/-- Insertion step of the window sort. -/
def insertOptN (a : Option ℚ) : List (Option ℚ) → List (Option ℚ)
  | [] => [a]
  | b :: l => if optLeN a b then a :: b :: l else b :: insertOptN a l

/-- Insertion sort of window values. -/
def sortOptN : List (Option ℚ) → List (Option ℚ)
  | [] => []
  | a :: l => insertOptN a (sortOptN l)

/-- Model of `scipy.ndimage.median_filter(g, size=k)` on an `h × w` raster: the rank
`k²/2` element of the sorted `k × k` reflected window. -/
def medianFiltered (h w k : ℕ) (g : Pos → Option ℚ) : Pos → Option ℚ := fun p =>
  let vals := (winOffsets k).map
    (fun o => g (reflectIdx h (p.1 + o.1), reflectIdx w (p.2 + o.2)))
  (sortOptN vals).getD (k * k / 2) none

/-- Threshold comparison of one cell: true iff the cell is finite and its
value is ≥ `t` (a NaN cell is never selected at this stage, since
`mask[valid] = ndvi[valid] >= thr` only assigns the finite positions). -/
def cellGeB (t : ℚ) : Option ℚ → Bool
  | some v => decide (t ≤ v)
  | none => false

/-- The thresholding step of `make_binary_from_ndvi` (lines 222-223):
`mask = zeros; mask[valid] = ndvi[valid] >= thr`. -/
def threshold_stage (d : Mask) (nd : Pos → Option ℚ) (t : ℚ) : Mask :=
  d.filter (fun p => cellGeB t (nd p))

/-- The row-major enumeration of the `h × w` grid, used where the script
flattens a raster (`ravel`, fancy indexing). -/
def rowMajor (h w : ℕ) : List Pos :=
  (List.range h).flatMap (fun i => (List.range w).map (fun j => ((i : ℤ), (j : ℤ))))

/-- The configuration dictionary of the script (`DEFAULT_CONFIG` keys). -/
structure Config where
  threshold_mode : String
  threshold_value : ℚ
  median_size : ℕ
  morph_radius : ℕ
  min_object_pixels : ℕ
  min_hole_pixels : ℕ
  mean_min : ℚ
  p90_min : ℚ
  FAST_MEAN_ONLY : Bool
  min_area_m2 : ℚ
  TARGET_EPSG : ℕ
  ADD_TOTAL_FIELD : Bool
  TOTAL_FIELD_NAME : List Char
  TOTAL_DECIMALS : ℕ

/-- The `DEFAULT_CONFIG` dictionary of code_de_surface.py (lines 66-81). -/
def DEFAULT_CONFIG : Config where
  threshold_mode := "fixed"
  threshold_value := 5 / 100
  median_size := 5
  morph_radius := 2
  min_object_pixels := 150
  min_hole_pixels := 150
  mean_min := 2 / 100
  p90_min := 5 / 100
  FAST_MEAN_ONLY := true
  min_area_m2 := 3000
  TARGET_EPSG := 32198
  ADD_TOTAL_FIELD := true
  TOTAL_FIELD_NAME := ['T', 'O', 'T', '_', 'K', 'M', '2']
  TOTAL_DECIMALS := 4

/-- A configuration with smoothing, morphology and size cleanup disabled
(all legal option values), used to exercise single stages on tiny rasters. -/
def plainCfg : Config :=
  { DEFAULT_CONFIG with
    median_size := 1
    morph_radius := 0
    min_object_pixels := 0
    min_hole_pixels := 0 }

/-- The smoothing step of `make_binary_from_ndvi` (lines 211-212): median
filter when `median_size > 1` (a falsy or ≤ 1 size skips it). -/
def smoothed (h w : ℕ) (ndvi : Pos → Option ℚ) (cfg : Config) : Pos → Option ℚ :=
  if 1 < cfg.median_size then medianFiltered h w cfg.median_size ndvi else ndvi

/-- The threshold selection of `make_binary_from_ndvi` (lines 217-220):
Otsu over the finite (post-smoothing) values when the mode lowercases to
"otsu" — `threshold_otsu` is the external skimage routine, abstracted as
the parameter `otsuFn`, with the 0.2 fallback when no pixel is finite —
and the fixed `threshold_value` otherwise. -/
def lowerStr (s : String) : String := String.mk (s.data.map Char.toLower)

def chosen_thr (otsuFn : List ℚ → ℚ) (h w : ℕ) (nd : Pos → Option ℚ)
    (cfg : Config) : ℚ :=
  let validVals := (rowMajor h w).filterMap (fun p => nd p)
  if lowerStr cfg.threshold_mode = "otsu" then
    (if validVals.isEmpty then 1 / 5 else otsuFn validVals)
  else cfg.threshold_value

/-- The morphology step of `make_binary_from_ndvi` (lines 226-229): opening
with the default cross footprint followed by closing with
`disk(morph_radius)`, both skipped when `morph_radius` is 0. -/
def morph_stage (d : Mask) (cfg : Config) (m : Mask) : Mask :=
  if 0 < cfg.morph_radius then
    binary_closing d (diskSE cfg.morph_radius) (binary_opening d (diskSE 1) m)
  else m

/-- The small-object removal step (lines 232-233). -/
def object_stage (cfg : Config) (m : Mask) : Mask :=
  if 0 < cfg.min_object_pixels then remove_small_objects m cfg.min_object_pixels else m

/-- The small-hole filling step (lines 234-235). -/
def hole_stage (d : Mask) (cfg : Config) (m : Mask) : Mask :=
  if 0 < cfg.min_hole_pixels then remove_small_holes d m cfg.min_hole_pixels else m

/-- The composed morphology/cleanup tail. -/
def classifier_tail (d : Mask) (cfg : Config) (m : Mask) : Mask :=
  hole_stage d cfg (object_stage cfg (morph_stage d cfg m))

/-- Model of `make_binary_from_ndvi` (lines 208-237): smoothing, threshold
selection, the threshold stage, then the morphology/cleanup tail.  Returns
the mask and the threshold actually used. -/
def make_binary_from_ndvi (otsuFn : List ℚ → ℚ) (h w : ℕ)
    (ndvi : Pos → Option ℚ) (cfg : Config) : Mask × ℚ :=
  let d := gridDom h w
  let nd := smoothed h w ndvi cfg
  let thr := chosen_thr otsuFn h w nd cfg
  (classifier_tail d cfg (threshold_stage d nd thr), thr)

/-- Model of `compute_ndvi` (code_de_surface.py lines 199-205): elementwise
`(nir - red) / (nir + red)`, guarded by `np.where(den != 0, num/den, np.nan)`.
A NaN in either band propagates (NaN arithmetic and the NaN-fill branch both
produce NaN, i.e. `none`, never Inf and never a substituted 0). -/
def compute_ndvi (nir red : Pos → Option ℚ) : Pos → Option ℚ := fun p =>
  match nir p, red p with
  | some n, some r => if n + r = 0 then none else some ((n - r) / (n + r))
  | _, _ => none

/-- Number of finite-NDVI pixels of a region (for a label `i ≥ 1` this is
`counts[i] = np.bincount(lbl_valid.ravel())[i]`, since `lbl_valid` zeroes
the non-finite pixels). -/
def finCount (g : Pos → Option ℚ) (C : Mask) : ℕ :=
  (C.filter (fun p => (g p).isSome)).card

/-- Sum of the finite NDVI values of a region (`sums[i]`, the weighted
bincount of `vals`, which is the NDVI zeroed at non-finite pixels). -/
def finSum (g : Pos → Option ℚ) (C : Mask) : ℚ :=
  ∑ p ∈ C.filter (fun p => (g p).isSome), (g p).getD 0

/-- The per-label mean the script computes: `sums / np.maximum(counts, 1)`
(a region with no finite pixel therefore scores 0, not NaN). -/
def codeMean (g : Pos → Option ℚ) (C : Mask) : ℚ :=
  finSum g C / (max (finCount g C) 1 : ℕ)

/-- The genuine mean NDVI over the finite pixels of a region (coincides with
`codeMean` as soon as the region has at least one finite pixel). -/
def trueMean (g : Pos → Option ℚ) (C : Mask) : ℚ :=
  finSum g C / (finCount g C : ℕ)

/-- Row-major flat index of a pixel, the order in which
`skimage.measure.label` scans the raster and hands out label numbers. -/
def anchorIdx (w : ℕ) (p : Pos) : ℤ := p.1 * w + p.2

/-- The anchor of a region: the smallest row-major index of its pixels.
Labels are assigned in increasing anchor order. -/
def compAnchor (w : ℕ) (C : Mask) : ℤ :=
  WithBot.unbot' 0 (C.image (anchorIdx w)).min

/-- The set of 4-connected components of a mask. -/
def comps (A : Mask) : Finset Mask := A.image (fun p => comp A p)

/-- The components containing at least one finite-NDVI pixel. -/
def finComps (g : Pos → Option ℚ) (A : Mask) : Finset Mask :=
  (comps A).filter (fun C => 0 < finCount g C)

/-- Whether `keep &= (means >= mean_min)` broadcasts.  `keep` has length
`nlab + 1` while `means` has length `L + 1` where `L = max(lbl_valid)` is
the greatest label owning a finite pixel (0 when none does, since
`np.bincount` sizes its output by the maximum value present).  numpy
accepts the in-place `&=` only when `L = nlab` (the component with the
greatest anchor has a finite pixel) or `L = 0` (no component has one);
otherwise it raises `ValueError: operands could not be broadcast`. -/
def broadcastOk (w : ℕ) (g : Pos → Option ℚ) (A : Mask) : Prop :=
  finComps g A = ∅ ∨
    ((comps A).image (compAnchor w)).max = ((finComps g A).image (compAnchor w)).max

instance broadcastOk.instDecidable (w : ℕ) (g : Pos → Option ℚ) (A : Mask) :
    Decidable (broadcastOk w g A) := by
  unfold broadcastOk; infer_instance

/-- The bucket `counts[0]`: the pixels whose `lbl_valid` is 0, i.e. background pixels
plus the non-finite pixels of every component. -/
def bucket0Count (h w : ℕ) (g : Pos → Option ℚ) (A : Mask) : ℕ :=
  ((gridDom h w).filter (fun p => p ∉ A ∨ (g p).isSome = false)).card

/-- The bucket `sums[0]`: the summed NDVI over pixels with `lbl_valid = 0`; the zeroed
`vals` only contributes at finite background pixels. -/
def bucket0Sum (h w : ℕ) (g : Pos → Option ℚ) (A : Mask) : ℚ :=
  ∑ p ∈ (gridDom h w).filter (fun p => p ∉ A ∧ (g p).isSome), (g p).getD 0

/-- The value `means[0] = sums[0] / max(counts[0], 1)`: the only entry of `means` in
the `L = 0` case, which then broadcasts onto every label's keep flag. -/
def bucket0Mean (h w : ℕ) (g : Pos → Option ℚ) (A : Mask) : ℚ :=
  bucket0Sum h w g A / (max (bucket0Count h w g A) 1 : ℕ)

/-- The partition rank `int(0.9 * (size - 1))` used for the 90th
percentile (exact on the integer grid; the float product 0.9·(n−1) rounds
to the same integer for the array sizes at stake). -/
def p90Index (n : ℕ) : ℕ := 9 * (n - 1) / 10

/-- The finite NDVI values of a region in ascending order
(`np.partition(arr, k)[k]` is the k-th order statistic, i.e. the k-th
element of the sorted values). -/
def finValsSorted (g : Pos → Option ℚ) (C : Mask) : List ℚ :=
  ((C.filter (fun p => (g p).isSome)).val.map (fun p => (g p).getD 0)).sort (· ≤ ·)

/-- The region's 90th percentile as the script computes it. -/
def p90Of (g : Pos → Option ℚ) (C : Mask) : ℚ :=
  (finValsSorted g C).getD (p90Index (finCount g C)) 0

/-- The mean-test keep flag of one component: in the `L = 0` broadcast case
every label is compared against `means[0]` (the background statistic),
otherwise against its own `codeMean`. -/
def keepMeanB (h w : ℕ) (g : Pos → Option ℚ) (A : Mask) (mean_min : ℚ) (C : Mask) : Bool :=
  if finComps g A = ∅ then decide (mean_min ≤ bucket0Mean h w g A)
  else decide (mean_min ≤ codeMean g C)

/-- The percentile-loop verdict for one candidate component: it survives the
loop iff it has at least one finite pixel and its p90 is ≥ `p90_min`
(a candidate with `arr.size == 0` is dropped there). -/
def scoredB (g : Pos → Option ℚ) (p90_min : ℚ) (C : Mask) : Bool :=
  decide (0 < finCount g C) && decide (p90_min ≤ p90Of g C)

/-- Final keep flag: the mean test, and — only when `use_p90` — the
percentile-loop test. -/
def keepFinalB (h w : ℕ) (g : Pos → Option ℚ) (A : Mask) (mean_min p90_min : ℚ)
    (use_p90 : Bool) (C : Mask) : Bool :=
  keepMeanB h w g A mean_min C && (!use_p90 || scoredB g p90_min C)

/-- Model of `fast_label_filter_by_ndvi` (lines 240-287).  Empty masks return
unchanged with zero tallies.  Otherwise the mask is labelled
(4-connectivity), per-label finite counts/sums are taken by `bincount`, and
`keep &= (means >= mean_min)` — which raises a broadcast `ValueError`
(modelled as `.error`) when the `means` vector is shorter than `keep` but
longer than 1, see `broadcastOk`.  With `use_p90`, surviving candidates with
no finite pixel or a low p90 are additionally dropped and counted in
`dropped_p90`.  The final mask is rebuilt by label membership
(`np.isin(lbl, kept_labels)`), and `dropped_mean = nlab - len(kept_labels)`
counts every dropped component (including the p90 drops). -/
def fast_label_filter (h w : ℕ) (A : Mask) (g : Pos → Option ℚ)
    (mean_min p90_min : ℚ) (use_p90 : Bool) : Except String (Mask × ℕ × ℕ) :=
  if A = ∅ then .ok (A, 0, 0) else
  if ¬ broadcastOk w g A then
    .error "ValueError: operands could not be broadcast together" else
  let cs := comps A
  let kept := cs.filter (fun C => keepFinalB h w g A mean_min p90_min use_p90 C)
  let dp := if use_p90 then
      (cs.filter (fun C => keepMeanB h w g A mean_min C && !scoredB g p90_min C)).card
    else 0
  let finalMask := A.filter (fun p => keepFinalB h w g A mean_min p90_min use_p90 (comp A p))
  .ok (finalMask, cs.card - kept.card, dp)

instance exceptDecEq {E A : Type} [DecidableEq E] [DecidableEq A] :
    DecidableEq (Except E A) := fun x y =>
  match x, y with
  | .error a, .error b =>
    if h : a = b then isTrue (by rw [h]) else isFalse (fun hc => h (Except.error.inj hc))
  | .ok a, .ok b =>
    if h : a = b then isTrue (by rw [h]) else isFalse (fun hc => h (Except.ok.inj hc))
  | .error _, .ok _ => isFalse (fun hc => Except.noConfusion hc)
  | .ok _, .error _ => isFalse (fun hc => Except.noConfusion hc)

/-- Python's `round` / numpy rounding to an integer: nearest, ties to even. -/
def roundHalfEven (x : ℚ) : ℤ :=
  let f := ⌊x⌋
  if x - f < 1 / 2 then f
  else if (1 : ℚ) / 2 < x - f then f + 1
  else if Even f then f else f + 1

/-- Python `round(x, d)`: rounding to `d` decimal places, ties to even. -/
def roundTo (d : ℕ) (x : ℚ) : ℚ := (roundHalfEven (x * 10 ^ d) : ℤ) / 10 ^ d

/-- The EPSG code of the UTM zone 20N guess substituted by `read_band` when
a raster carries no CRS (the WKT string built at lines 104-118). -/
def UTM20N : ℕ := 32620

/-- A raster band file as the loader sees it: dimensions, cell values
(`none` marking a stored non-finite value), the declared nodata sentinel,
and opaque identifiers for the affine transform and the CRS (the script
only ever compares them for equality). -/
structure BandFile where
  h : ℕ
  w : ℕ
  cells : Pos → Option ℚ
  nodata : Option ℚ
  transform : ℕ
  crs : Option ℕ

/-- Model of `read_band` (lines 84-133): reads the band, replaces nodata-sentinel
cells and non-finite cells by NaN, and substitutes the UTM 20N guess when
the CRS is missing (the WKT construction never fails).  Returns
`(arr, transform, crs, w, h)`. -/
def read_band (f : BandFile) : (Pos → Option ℚ) × ℕ × Option ℕ × ℕ × ℕ :=
  ((fun p => match f.cells p with
     | none => none
     | some v => if f.nodata = some v then none else some v),
   f.transform,
   (match f.crs with
    | none => some UTM20N
    | some c => some c),
   f.w, f.h)

/-- Model of `reproject_match` (lines 136-177): when the source CRS is missing the
destination CRS is assumed; when CRS, transform and dimensions all match
the destination grid the band is returned as read — with NO nodata or
non-finite normalization — and otherwise the external
`rasterio.warp.reproject` (parameter `rio`) produces the resampled band. -/
def reproject_match (rio : BandFile → ℕ → Option ℕ → ℕ → ℕ → (Pos → Option ℚ))
    (f : BandFile) (dstT : ℕ) (dstCrs : Option ℕ) (dstW dstH : ℕ) : Pos → Option ℚ :=
  let srcCrs := match f.crs with
    | none => dstCrs
    | some c => some c
  if srcCrs = dstCrs ∧ f.transform = dstT ∧ f.w = dstW ∧ f.h = dstH then f.cells
  else rio f dstT dstCrs dstW dstH

/-- Model of `ensure_same_shape` (lines 180-196): if the two bands differ in shape,
resize NIR with the external `scipy.ndimage.zoom` (parameter `zoom`). -/
def ensure_same_shape (zoom : (Pos → Option ℚ) → ℕ × ℕ → ℕ × ℕ → (Pos → Option ℚ))
    (red nir : Pos → Option ℚ) (redHW nirHW : ℕ × ℕ) :
    (Pos → Option ℚ) × (Pos → Option ℚ) :=
  if redHW ≠ nirHW then (red, zoom nir nirHW redHW) else (red, nir)

/-- The band-loading front end of `process_ndvi` (lines 354-368): read RED,
reproject NIR onto RED's grid, reconcile shapes (the reprojected NIR always
already has RED's shape) and compute NDVI.  Returns `(ndvi, h, w)`. -/
def band_stage (rio : BandFile → ℕ → Option ℕ → ℕ → ℕ → (Pos → Option ℚ))
    (zoom : (Pos → Option ℚ) → ℕ × ℕ → ℕ × ℕ → (Pos → Option ℚ))
    (redF nirF : BandFile) : (Pos → Option ℚ) × ℕ × ℕ :=
  let rb := read_band redF
  let red := rb.1
  let tr := rb.2.1
  let crs := rb.2.2.1
  let w := rb.2.2.2.1
  let h := rb.2.2.2.2
  let nir0 := reproject_match rio nirF tr crs w h
  let rn := ensure_same_shape zoom red nir0 (h, w) (h, w)
  (compute_ndvi rn.2 rn.1, h, w)

/-- The minimum-area filter (line 417):
`gdf_m = gdf_m[gdf_m["area_m2"] >= config['min_area_m2']]`, on rows that
pair a (metric) geometry with its computed area. -/
def area_filter {G : Type} (minA : ℚ) (rows : List (G × ℚ)) : List (G × ℚ) :=
  rows.filter (fun r => decide (minA ≤ r.2))

/-- One record of the written shapefile: geometry (back in the source CRS)
and the attributes `area_m2`, `area_km2` (rounded) and, when present, the
repeated total column value. -/
structure OutFeature (G : Type) where
  geom : G
  area_m2 : ℚ
  area_km2 : ℚ
  tot : Option ℚ
  deriving DecidableEq

/-- The successful result of a run: the features handed to `to_file`, plus
the truncated total-field column name and its value when the column was
added.  An `.ok` result of `process_ndvi` means the shapefile write was
reached with exactly these features. -/
structure RunOutput (G : Type) where
  features : List (OutFeature G)
  totalFieldName : Option (List Char)
  totalValue : Option ℚ
  deriving DecidableEq

/-- The area/attribute tail of `process_ndvi` (lines 414-437): reproject to
the metric CRS (external, parameter `toMetric`), compute areas (external
shapely area, parameter `areaFn`), filter by `min_area_m2`, derive
`area_km2 = area_m2 / 1e6`, add the total column — computed from the
UNROUNDED `area_km2` values and rounded to `TOTAL_DECIMALS`, under the
field name truncated to 10 characters — then round the per-feature
`area_km2` column and reproject back (parameter `toSrc`).  The first step,
computing per-geometry metric areas (line 415-416), is `metric_rows`. -/
def metric_rows {G : Type} (toMetric : G → G) (areaFn : G → ℚ)
    (gdf : List G) : List (G × ℚ) :=
  gdf.map (fun g0 => (toMetric g0, areaFn (toMetric g0)))

/-- The total-column value (lines 423-425): present when `ADD_TOTAL_FIELD`
and the post-filter collection is nonempty; computed from the UNROUNDED
per-row `area_km2 = area_m2 / 1e6` values and rounded to
`TOTAL_DECIMALS`. -/
def run_total {G : Type} (cfg : Config) (kept : List (G × ℚ)) : Option ℚ :=
  if cfg.ADD_TOTAL_FIELD && !kept.isEmpty then
    some (roundTo cfg.TOTAL_DECIMALS ((kept.map (fun r => r.2 / 1000000)).sum))
  else none

/-- The assembled area/attribute tail: filtered rows become features with
`area_m2`, rounded `area_km2`, the shared total column, and the geometry
reprojected back to the source CRS. -/
def vector_area_stage {G : Type} (toMetric : G → G) (areaFn : G → ℚ) (toSrc : G → G)
    (cfg : Config) (gdf : List G) : RunOutput G :=
  { features := (area_filter cfg.min_area_m2 (metric_rows toMetric areaFn gdf)).map (fun r =>
      { geom := toSrc r.1
        area_m2 := r.2
        area_km2 := roundTo cfg.TOTAL_DECIMALS (r.2 / 1000000)
        tot := run_total cfg (area_filter cfg.min_area_m2 (metric_rows toMetric areaFn gdf)) })
    totalFieldName := (run_total cfg (area_filter cfg.min_area_m2 (metric_rows toMetric areaFn gdf))).map
      (fun _ => cfg.TOTAL_FIELD_NAME.take 10)
    totalValue := run_total cfg (area_filter cfg.min_area_m2 (metric_rows toMetric areaFn gdf)) }

/-- Model of `process_ndvi` (lines 322-442): the full pipeline.  Hard failures are
raised — and hence no shapefile write is reached — when the classifier mask
is all false (line 381), when the component filter drops everything
(line 401), or when vectorization yields no polygon (line 408); a broadcast
`ValueError` escaping `fast_label_filter_by_ndvi` likewise aborts the run.
The external collaborators are parameters: `rio` (rasterio reproject),
`zoom` (scipy zoom), `otsuFn` (skimage Otsu), `shapesFn` (rasterio
vectorization), `toMetric`/`toSrc` (geopandas CRS conversions, including
the fallback chain of `to_metric_for_area`), `areaFn` (shapely area). -/
def process_ndvi {G : Type} (rio : BandFile → ℕ → Option ℕ → ℕ → ℕ → (Pos → Option ℚ))
    (zoom : (Pos → Option ℚ) → ℕ × ℕ → ℕ × ℕ → (Pos → Option ℚ))
    (otsuFn : List ℚ → ℚ) (shapesFn : Mask → List G)
    (toMetric : G → G) (areaFn : G → ℚ) (toSrc : G → G)
    (redF nirF : BandFile) (cfg : Config) : Except String (RunOutput G) :=
  let bs := band_stage rio zoom redF nirF
  let ndvi := bs.1
  let hh := bs.2.1
  let ww := bs.2.2
  let mb := make_binary_from_ndvi otsuFn hh ww ndvi cfg
  if mb.1.card = 0 then .error "Aucun pixel sélectionné. Ajustez les paramètres." else
  match fast_label_filter hh ww mb.1 ndvi cfg.mean_min cfg.p90_min (!cfg.FAST_MEAN_ONLY) with
  | .error e => .error e
  | .ok res =>
    if res.1.card = 0 then .error "Tous les objets filtrés. Ajustez les paramètres." else
    let gdf := shapesFn res.1
    if gdf.isEmpty then .error "Vectorisation vide." else
    .ok (vector_area_stage toMetric areaFn toSrc cfg gdf)

/-- A 1×1 RED band file with the constant finite value 50, no declared
nodata, transform id 1 and CRS id 1 (used by the pipeline witnesses). -/
def Wred : BandFile where
  h := 1
  w := 1
  cells := fun _ => some 50
  nodata := none
  transform := 1
  crs := some 1

/-- A 1×1 NIR band file with the constant finite value 200, on the same
grid as `Wred` (identity-passthrough path). -/
def Wnir : BandFile where
  h := 1
  w := 1
  cells := fun _ => some 200
  nodata := none
  transform := 1
  crs := some 1

/-- External reprojection stand-in for the pipeline witnesses; it is never
consulted because the NIR band is already on the destination grid. -/
def Wrio : BandFile → ℕ → Option ℕ → ℕ → ℕ → (Pos → Option ℚ) :=
  fun _ _ _ _ _ => fun _ => none

/-- External zoom stand-in for the pipeline witnesses; it is never
consulted because the shapes already agree. -/
def Wzoom : (Pos → Option ℚ) → ℕ × ℕ → ℕ × ℕ → (Pos → Option ℚ) :=
  fun g _ _ => g

/-- The NIR band file of the C5 failing input: a 1×1 raster whose single
cell stores the declared nodata sentinel 0, already on the destination grid
(same CRS id, transform id and dimensions), i.e. the identity-passthrough
path of `reproject_match`. -/
def C5nirFile : BandFile where
  h := 1
  w := 1
  cells := fun _ => some 0
  nodata := some 0
  transform := 3
  crs := some 2

/-- A stand-in for the external rasterio reprojection; it is never invoked
on the identity-passthrough path. -/
def C5rio : BandFile → ℕ → Option ℕ → ℕ → ℕ → (Pos → Option ℚ) :=
  fun _ _ _ _ _ => fun _ => none

set_option maxRecDepth 4000 in

/-- The mask of the C9 witness: two one-pixel components on a 1×3 row, the
lower-labelled one NaN everywhere, the higher-labelled one finite (so the
bincount lengths match and the filter returns). -/
def C9mask : Mask := {((0 : ℤ), (0 : ℤ)), ((0 : ℤ), (2 : ℤ))}

/-- The NDVI raster of the C9 witness: finite only at column 2. -/
def C9g : Pos → Option ℚ := fun p =>
  if p = ((0 : ℤ), (2 : ℤ)) then some (1 / 2) else none

/-- The configuration of the C8 counterexample: the plain stage-disabled
configuration with the minimum-area floor set to 0 (so both 40 m² polygons
survive); `TOTAL_DECIMALS` stays at its default 4. -/
def C8cfg : Config := { plainCfg with min_area_m2 := 0 }

/-- The run output of the concrete C8 scenario. -/
def C8out : RunOutput ℕ where
  features := [
    { geom := 0, area_m2 := 40, area_km2 := 0, tot := some (1 / 10000) },
    { geom := 1, area_m2 := 40, area_km2 := 0, tot := some (1 / 10000) }]
  totalFieldName := some ['T', 'O', 'T', '_', 'K', 'M', '2']
  totalValue := some (1 / 10000)

theorem adj4_symm {p q : Pos} (h : adj4 p q) : adj4 q p := by
  unfold adj4 at h ⊢
  rcases h with ⟨h1, h2 | h2⟩ | ⟨h1, h2 | h2⟩ <;> simp [h1, h2]

theorem subset_compGrow (A S : Mask) : S ⊆ compGrow A S :=
  Finset.subset_union_left

theorem compGrow_subset {A S : Mask} (h : S ⊆ A) : compGrow A S ⊆ A :=
  Finset.union_subset h (Finset.filter_subset _ _)

theorem compGrow_mono {A B S T : Mask} (hAB : A ⊆ B) (hST : S ⊆ T) :
    compGrow A S ⊆ compGrow B T := by
  intro q hq
  rcases Finset.mem_union.1 hq with h | h
  · exact Finset.mem_union.2 (Or.inl (hST h))
  · rcases Finset.mem_filter.1 h with ⟨hqA, r, hrS, hadj⟩
    exact Finset.mem_union.2 (Or.inr (Finset.mem_filter.2 ⟨hAB hqA, r, hST hrS, hadj⟩))

theorem compGrow_empty (A : Mask) : compGrow A ∅ = ∅ := by
  ext q; simp [compGrow]

theorem iterate_compGrow_subset {A S : Mask} (h : S ⊆ A) (n : ℕ) :
    (compGrow A)^[n] S ⊆ A := by
  induction n with
  | zero => simpa using h
  | succ n ih =>
    rw [Function.iterate_succ_apply']
    exact compGrow_subset ih

theorem subset_iterate_compGrow (A S : Mask) (n : ℕ) : S ⊆ (compGrow A)^[n] S := by
  induction n with
  | zero => simp
  | succ n ih =>
    rw [Function.iterate_succ_apply']
    exact ih.trans (subset_compGrow _ _)

theorem iterate_compGrow_le {A S : Mask} {n m : ℕ} (h : n ≤ m) :
    (compGrow A)^[n] S ⊆ (compGrow A)^[m] S := by
  induction m with
  | zero =>
    have : n = 0 := Nat.le_zero.1 h
    subst this; exact subset_rfl
  | succ m ih =>
    rcases Nat.lt_or_ge n (m + 1) with h' | h'
    · have := ih (Nat.lt_succ_iff.1 h')
      rw [Function.iterate_succ_apply']
      exact this.trans (subset_compGrow _ _)
    · have : n = m + 1 := le_antisymm h h'
      subst this; exact subset_rfl

theorem iterate_compGrow_empty (A : Mask) (n : ℕ) : (compGrow A)^[n] ∅ = ∅ := by
  induction n with
  | zero => rfl
  | succ n ih => rw [Function.iterate_succ_apply', ih, compGrow_empty]

theorem compGrow_iterate_stable {A S : Mask} {k : ℕ}
    (h : (compGrow A)^[k + 1] S = (compGrow A)^[k] S) :
    ∀ m, k ≤ m → (compGrow A)^[m] S = (compGrow A)^[k] S := by
  intro m hm
  induction m with
  | zero =>
    have : k = 0 := Nat.le_zero.1 hm
    subst this; rfl
  | succ m ih =>
    rcases Nat.lt_or_ge k (m + 1) with h' | h'
    · have hkm : k ≤ m := Nat.lt_succ_iff.1 h'
      have hstep := ih hkm
      rw [Function.iterate_succ_apply', hstep,
        ← Function.iterate_succ_apply' (compGrow A) k S, h]
    · have : k = m + 1 := le_antisymm hm h'
      subst this; rfl

theorem compGrow_reaches_fixpoint {A S : Mask} (hS : S ⊆ A) (n : ℕ) :
    (∃ k ≤ n, (compGrow A)^[k + 1] S = (compGrow A)^[k] S) ∨
      n < ((compGrow A)^[n] S).card := by
  induction n with
  | zero =>
    by_cases h0 : S = ∅
    · subst h0
      exact Or.inl ⟨0, le_refl 0, by simp [compGrow_empty]⟩
    · exact Or.inr (Finset.card_pos.2 (Finset.nonempty_of_ne_empty h0))
  | succ n ih =>
    rcases ih with ⟨k, hk, hfix⟩ | hlt
    · exact Or.inl ⟨k, hk.trans (Nat.le_succ n), hfix⟩
    · by_cases h : (compGrow A)^[n + 1] S = (compGrow A)^[n] S
      · exact Or.inl ⟨n, Nat.le_succ n, h⟩
      · right
        have hsub : (compGrow A)^[n] S ⊆ (compGrow A)^[n + 1] S :=
          iterate_compGrow_le (Nat.le_succ n)
        have hcard : ((compGrow A)^[n] S).card < ((compGrow A)^[n + 1] S).card :=
          Finset.card_lt_card (Finset.ssubset_iff_subset_ne.2 ⟨hsub, fun he => h he.symm⟩)
        omega

theorem comp_fixed (A : Mask) (p : Pos) : compGrow A (comp A p) = comp A p := by
  have hS : A ∩ {p} ⊆ A := Finset.inter_subset_left
  rcases compGrow_reaches_fixpoint hS A.card with ⟨k, hk, hfix⟩ | hlt
  · have h1 := compGrow_iterate_stable hfix A.card hk
    have h2 := compGrow_iterate_stable hfix (A.card + 1) (hk.trans (Nat.le_succ _))
    unfold comp
    rw [← Function.iterate_succ_apply' (compGrow A) A.card (A ∩ {p}), h2, h1]
  · exfalso
    have hle : ((compGrow A)^[A.card] (A ∩ {p})).card ≤ A.card :=
      Finset.card_le_card (iterate_compGrow_subset hS _)
    omega

theorem comp_subset (A : Mask) (p : Pos) : comp A p ⊆ A :=
  iterate_compGrow_subset Finset.inter_subset_left _

theorem mem_comp_self {A : Mask} {p : Pos} (hp : p ∈ A) : p ∈ comp A p :=
  subset_iterate_compGrow _ _ _ (Finset.mem_inter.2 ⟨hp, Finset.mem_singleton_self p⟩)

theorem comp_of_not_mem {A : Mask} {p : Pos} (hp : p ∉ A) : comp A p = ∅ := by
  unfold comp
  have h0 : A ∩ {p} = ∅ := by
    ext q
    simp only [Finset.mem_inter, Finset.mem_singleton, Finset.not_mem_empty, iff_false]
    rintro ⟨hq, rfl⟩
    exact hp hq
  rw [h0, iterate_compGrow_empty]

theorem reach_of_mem_iterate {A : Mask} {p : Pos} (n : ℕ) :
    ∀ q ∈ (compGrow A)^[n] (A ∩ {p}), ReachIn A p q := by
  induction n with
  | zero =>
    intro q hq
    rw [Function.iterate_zero_apply] at hq
    rcases Finset.mem_inter.1 hq with ⟨_, hq1⟩
    rw [Finset.mem_singleton] at hq1
    subst hq1
    exact Relation.ReflTransGen.refl
  | succ n ih =>
    intro q hq
    rw [Function.iterate_succ_apply'] at hq
    rcases Finset.mem_union.1 hq with h | h
    · exact ih q h
    · rcases Finset.mem_filter.1 h with ⟨hqA, r, hrS, hadj⟩
      exact Relation.ReflTransGen.tail (ih r hrS) ⟨hqA, hadj⟩

theorem mem_comp_of_reach {A : Mask} {p q : Pos} (hp : p ∈ A) (h : ReachIn A p q) :
    q ∈ comp A p := by
  induction h with
  | refl => exact mem_comp_self hp
  | tail h1 h2 ih =>
    rw [← comp_fixed A p]
    exact Finset.mem_union.2 (Or.inr (Finset.mem_filter.2 ⟨h2.1, _, ih, h2.2⟩))

theorem mem_comp_iff {A : Mask} {p q : Pos} :
    q ∈ comp A p ↔ p ∈ A ∧ ReachIn A p q := by
  constructor
  · intro h
    have hpA : p ∈ A := by
      by_contra hp
      rw [comp_of_not_mem hp] at h
      exact absurd h (Finset.not_mem_empty q)
    exact ⟨hpA, reach_of_mem_iterate A.card q h⟩
  · rintro ⟨hp, hr⟩
    exact mem_comp_of_reach hp hr

theorem reach_mem {A : Mask} {p q : Pos} (hp : p ∈ A) (h : ReachIn A p q) : q ∈ A := by
  induction h with
  | refl => exact hp
  | tail _ h2 _ => exact h2.1

theorem reach_symm {A : Mask} {p q : Pos} (hp : p ∈ A) (h : ReachIn A p q) :
    ReachIn A q p := by
  induction h with
  | refl => exact Relation.ReflTransGen.refl
  | tail h1 h2 ih =>
    exact Relation.ReflTransGen.head ⟨reach_mem hp h1, adj4_symm h2.2⟩ ih

theorem comp_eq_of_mem {A : Mask} {p q : Pos} (h : q ∈ comp A p) :
    comp A q = comp A p := by
  rcases mem_comp_iff.1 h with ⟨hp, hpq⟩
  have hq : q ∈ A := reach_mem hp hpq
  ext r
  simp only [mem_comp_iff]
  constructor
  · rintro ⟨-, hqr⟩
    exact ⟨hp, hpq.trans hqr⟩
  · rintro ⟨-, hpr⟩
    exact ⟨hq, (reach_symm hp hpq).trans hpr⟩

theorem comp_mono {A B : Mask} (hAB : A ⊆ B) (p : Pos) : comp A p ⊆ comp B p := by
  intro q hq
  rcases mem_comp_iff.1 hq with ⟨hp, hr⟩
  refine mem_comp_iff.2 ⟨hAB hp, ?_⟩
  exact Relation.ReflTransGen.mono (fun a b hab => ⟨hAB hab.1, hab.2⟩) hr

theorem erodeM_mono {d se : Finset Pos} {A B : Mask} (h : A ⊆ B) :
    erodeM d se A ⊆ erodeM d se B := by
  intro p hp
  rcases Finset.mem_filter.1 hp with ⟨hpd, hall⟩
  exact Finset.mem_filter.2 ⟨hpd, fun o ho hmem => h (hall o ho hmem)⟩

theorem dilateM_mono {d se : Finset Pos} {A B : Mask} (h : A ⊆ B) :
    dilateM d se A ⊆ dilateM d se B := by
  intro p hp
  rcases Finset.mem_filter.1 hp with ⟨hpd, o, ho, hmem⟩
  exact Finset.mem_filter.2 ⟨hpd, o, ho, h hmem⟩

theorem binary_opening_mono {d se : Finset Pos} {A B : Mask} (h : A ⊆ B) :
    binary_opening d se A ⊆ binary_opening d se B :=
  dilateM_mono (erodeM_mono h)

theorem binary_closing_mono {d se : Finset Pos} {A B : Mask} (h : A ⊆ B) :
    binary_closing d se A ⊆ binary_closing d se B :=
  erodeM_mono (dilateM_mono h)

theorem remove_small_objects_mono {A B : Mask} (h : A ⊆ B) (s : ℕ) :
    remove_small_objects A s ⊆ remove_small_objects B s := by
  intro p hp
  rcases Finset.mem_filter.1 hp with ⟨hpA, hcard⟩
  exact Finset.mem_filter.2
    ⟨h hpA, le_trans hcard (Finset.card_le_card (comp_mono h p))⟩

theorem remove_small_holes_mono {d A B : Mask} (h : A ⊆ B) (thr : ℕ) :
    remove_small_holes d A thr ⊆ remove_small_holes d B thr := by
  intro p hp
  rcases Finset.mem_sdiff.1 hp with ⟨hpd, hpn⟩
  refine Finset.mem_sdiff.2 ⟨hpd, fun hmem => hpn ?_⟩
  rcases Finset.mem_filter.1 hmem with ⟨hpB, hcard⟩
  have hsub : d \ B ⊆ d \ A := Finset.sdiff_subset_sdiff subset_rfl h
  exact Finset.mem_filter.2
    ⟨hsub hpB, le_trans hcard (Finset.card_le_card (comp_mono hsub p))⟩

theorem threshold_stage_anti {d : Mask} {nd : Pos → Option ℚ} {t1 t2 : ℚ}
    (h : t1 ≤ t2) : threshold_stage d nd t2 ⊆ threshold_stage d nd t1 := by
  intro p hp
  rcases Finset.mem_filter.1 hp with ⟨hpd, hge⟩
  refine Finset.mem_filter.2 ⟨hpd, ?_⟩
  cases hc : nd p with
  | none => rw [hc] at hge; exact absurd hge (by simp [cellGeB])
  | some v =>
    rw [hc] at hge
    simp only [cellGeB, decide_eq_true_eq] at hge ⊢
    linarith

theorem morph_stage_mono {d : Mask} (cfg : Config) {A B : Mask} (h : A ⊆ B) :
    morph_stage d cfg A ⊆ morph_stage d cfg B := by
  unfold morph_stage
  split_ifs
  · exact binary_closing_mono (binary_opening_mono h)
  · exact h

theorem object_stage_mono (cfg : Config) {A B : Mask} (h : A ⊆ B) :
    object_stage cfg A ⊆ object_stage cfg B := by
  unfold object_stage
  split_ifs
  · exact remove_small_objects_mono h _
  · exact h

theorem hole_stage_mono {d : Mask} (cfg : Config) {A B : Mask} (h : A ⊆ B) :
    hole_stage d cfg A ⊆ hole_stage d cfg B := by
  unfold hole_stage
  split_ifs
  · exact remove_small_holes_mono h _
  · exact h

theorem classifier_tail_mono {d : Mask} (cfg : Config) {A B : Mask} (h : A ⊆ B) :
    classifier_tail d cfg A ⊆ classifier_tail d cfg B :=
  hole_stage_mono cfg (object_stage_mono cfg (morph_stage_mono cfg h))

theorem make_binary_fst (otsuFn : List ℚ → ℚ) (h w : ℕ)
    (ndvi : Pos → Option ℚ) (cfg : Config) :
    (make_binary_from_ndvi otsuFn h w ndvi cfg).1 =
      classifier_tail (gridDom h w) cfg
        (threshold_stage (gridDom h w) (smoothed h w ndvi cfg)
          (chosen_thr otsuFn h w (smoothed h w ndvi cfg) cfg)) := rfl

theorem chosen_thr_fixed (otsuFn : List ℚ → ℚ) (h w : ℕ) (nd : Pos → Option ℚ)
    (cfg : Config) (hmode : lowerStr cfg.threshold_mode ≠ "otsu") :
    chosen_thr otsuFn h w nd cfg = cfg.threshold_value := by
  simp [chosen_thr, hmode]

theorem make_binary_fixed_anti (otsuFn : List ℚ → ℚ) (h w : ℕ)
    (ndvi : Pos → Option ℚ) (cfg1 cfg2 : Config)
    (hmode : lowerStr cfg1.threshold_mode ≠ "otsu")
    (hm : cfg2.threshold_mode = cfg1.threshold_mode)
    (hmed : cfg2.median_size = cfg1.median_size)
    (hmorph : cfg2.morph_radius = cfg1.morph_radius)
    (hobj : cfg2.min_object_pixels = cfg1.min_object_pixels)
    (hhole : cfg2.min_hole_pixels = cfg1.min_hole_pixels)
    (hle : cfg1.threshold_value ≤ cfg2.threshold_value) :
    (make_binary_from_ndvi otsuFn h w ndvi cfg2).1 ⊆
      (make_binary_from_ndvi otsuFn h w ndvi cfg1).1 := by
  have hmode2 : lowerStr cfg2.threshold_mode ≠ "otsu" := by rw [hm]; exact hmode
  have hsm : smoothed h w ndvi cfg2 = smoothed h w ndvi cfg1 := by
    simp [smoothed, hmed]
  have htail : ∀ m : Mask, classifier_tail (gridDom h w) cfg2 m =
      classifier_tail (gridDom h w) cfg1 m := by
    intro m
    simp [classifier_tail, hole_stage, object_stage, morph_stage, hmorph, hobj, hhole]
  rw [make_binary_fst, make_binary_fst, hsm, htail,
    chosen_thr_fixed _ _ _ _ _ hmode2, chosen_thr_fixed _ _ _ _ _ hmode]
  exact classifier_tail_mono cfg1 (threshold_stage_anti hle)

/-- C6: with fixed thresholding and all other configuration equal, the
Binary Mask produced by the full classifier (smoothing, threshold, opening,
closing, small-object removal, small-hole filling) with threshold `t2` has
no more true pixels than the one produced with threshold `t1 ≤ t2`: every
stage of the pipeline after the (threshold-independent) smoothing is
monotone with respect to mask inclusion, and the threshold stage itself is
antitone in the threshold. -/
theorem C6_threshold_monotonicity (otsuFn : List ℚ → ℚ) (h w : ℕ)
    (ndvi : Pos → Option ℚ) (cfg : Config) (t1 t2 : ℚ)
    (hmode : lowerStr cfg.threshold_mode ≠ "otsu") (hle : t1 ≤ t2) :
    ((make_binary_from_ndvi otsuFn h w ndvi { cfg with threshold_value := t2 }).1).card ≤
      ((make_binary_from_ndvi otsuFn h w ndvi { cfg with threshold_value := t1 }).1).card :=
  Finset.card_le_card (make_binary_fixed_anti otsuFn h w ndvi
    { cfg with threshold_value := t1 } { cfg with threshold_value := t2 }
    hmode rfl rfl rfl rfl rfl hle)

/-- Witness for C6 on a concrete 1×1 raster with NDVI 3/5: threshold 7/10
yields an empty mask while threshold 1/20 keeps the pixel. -/
theorem C6_witness :
    lowerStr plainCfg.threshold_mode ≠ "otsu" ∧ (1 : ℚ) / 20 ≤ 7 / 10 ∧
    ((make_binary_from_ndvi (fun _ => 0) 1 1 (fun _ => some (3 / 5))
        { plainCfg with threshold_value := 7 / 10 }).1).card ≤
      ((make_binary_from_ndvi (fun _ => 0) 1 1 (fun _ => some (3 / 5))
        { plainCfg with threshold_value := 1 / 20 }).1).card :=
  ⟨by decide, by norm_num,
    C6_threshold_monotonicity (fun _ => 0) 1 1 (fun _ => some (3 / 5))
      plainCfg (1 / 20) (7 / 10) (by decide) (by norm_num)⟩

/-- C1: for cells where both bands are finite, NDVI equals
`(nir - red) / (nir + red)` when the denominator is nonzero and is
not-a-number (`none`, never Inf and never 0) when the denominator is zero;
for finite `red > 0` and `nir > 0` the value lies in `[-1, 1]`. -/
theorem C1_ndvi_formula_and_bounds (nir red : Pos → Option ℚ) (p : Pos)
    (n r : ℚ) (hn : nir p = some n) (hr : red p = some r) :
    (n + r ≠ 0 → compute_ndvi nir red p = some ((n - r) / (n + r))) ∧
    (n + r = 0 → compute_ndvi nir red p = none) ∧
    (0 < n → 0 < r → ∃ v, compute_ndvi nir red p = some v ∧ -1 ≤ v ∧ v ≤ 1) := by
  refine ⟨?_, ?_, ?_⟩
  · intro hden
    simp [compute_ndvi, hn, hr, hden]
  · intro hden
    simp [compute_ndvi, hn, hr, hden]
  · intro hnpos hrpos
    have hden : 0 < n + r := by linarith
    refine ⟨(n - r) / (n + r), ?_, ?_, ?_⟩
    · simp [compute_ndvi, hn, hr, ne_of_gt hden]
    · rw [le_div_iff₀ hden]; linarith
    · rw [div_le_one hden]; linarith

/-- Witness for C1 at a concrete cell: red = 50, nir = 200, so the
denominator is nonzero and NDVI = 150/250 = 3/5 ∈ [-1, 1]. -/
theorem C1_witness :
    compute_ndvi (fun _ => some 200) (fun _ => some 50) (0, 0) = some (3 / 5) ∧
    ∃ v, compute_ndvi (fun _ => some 200) (fun _ => some 50) (0, 0) = some v ∧
      -1 ≤ v ∧ v ≤ 1 := by
  have h := C1_ndvi_formula_and_bounds (fun _ => some 200) (fun _ => some 50)
    (0, 0) 200 50 rfl rfl
  refine ⟨?_, h.2.2 (by norm_num) (by norm_num)⟩
  have := h.1 (by norm_num)
  rw [this]
  norm_num

set_option maxRecDepth 4000 in
set_option maxHeartbeats 1000000 in
/-- C3 counterexample: the claim "every cell whose NDVI value is NaN is
false in the Binary Mask produced by the classifier" fails on the code.  On
a 3×3 raster whose center RED cell is NaN (so its NDVI is NaN) and whose
ring has NDVI 3/5, the thresholded mask is the 8-pixel ring; small-hole
filling (`min_hole_pixels = 150`) then fills the single-pixel hole, so the
final classifier mask is true at the NaN cell. -/
theorem C3_counterexample :
    compute_ndvi (fun _ => some 200)
      (fun p => if p = ((1 : ℤ), (1 : ℤ)) then none else some 50) (1, 1) = none ∧
    ((1 : ℤ), (1 : ℤ)) ∈ (make_binary_from_ndvi (fun _ => 0) 3 3
      (compute_ndvi (fun _ => some 200)
        (fun p => if p = ((1 : ℤ), (1 : ℤ)) then none else some 50))
      { plainCfg with min_hole_pixels := 150 }).1 := by
  constructor
  · rfl
  · with_unfolding_all decide

/-- C3 (amended): a NaN cell in either input band yields a NaN NDVI cell,
and a NaN (post-smoothing) cell is always false at the thresholding step of
the classifier; the final Binary Mask, however, can be true at such a cell,
because the later closing / small-hole filling steps may add it (see the
counterexample). -/
theorem C3_nan_propagation (nir red nd : Pos → Option ℚ) (d : Mask) (t : ℚ)
    (p : Pos) :
    ((nir p = none ∨ red p = none) → compute_ndvi nir red p = none) ∧
    (nd p = none → p ∉ threshold_stage d nd t) := by
  constructor
  · intro hor
    cases hn : nir p with
    | none => cases hr : red p <;> simp [compute_ndvi, hn, hr]
    | some n =>
      cases hr : red p with
      | none => simp [compute_ndvi, hn, hr]
      | some r =>
        rcases hor with h | h
        · rw [h] at hn; exact Option.noConfusion hn
        · rw [h] at hr; exact Option.noConfusion hr
  · intro h hmem
    rcases Finset.mem_filter.1 hmem with ⟨-, hge⟩
    rw [h] at hge
    simp [cellGeB] at hge

/-- Witness for C3 (amended) at a concrete cell: a NaN NIR cell gives a NaN
NDVI cell, and a NaN cell is excluded by the threshold stage. -/
theorem C3_witness :
    compute_ndvi (fun _ => none) (fun _ => some 1) (0, 0) = none ∧
    ((0 : ℤ), (0 : ℤ)) ∉ threshold_stage (gridDom 1 1) (fun _ => none) 0 :=
  ⟨(C3_nan_propagation (fun _ => none) (fun _ => some 1) (fun _ => none)
      (gridDom 1 1) 0 (0, 0)).1 (Or.inl rfl),
   (C3_nan_propagation (fun _ => none) (fun _ => some 1) (fun _ => none)
      (gridDom 1 1) 0 (0, 0)).2 rfl⟩

/-- C5 (code-bug demonstration): `read_band` does replace the nodata
sentinel by NaN, but the NIR band is loaded through `reproject_match`,
whose identity-passthrough branch returns `src.read(1)` raw — no nodata or
non-finite normalization — so the sentinel value 0 survives into the NDVI
arithmetic and produces the finite (wrong) value -1 where the invariant
demands NaN. -/
theorem C5_nir_band_not_normalized :
    (read_band C5nirFile).1 (0, 0) = none ∧
    reproject_match C5rio C5nirFile 3 (some 2) 1 1 (0, 0) = some 0 ∧
    compute_ndvi (reproject_match C5rio C5nirFile 3 (some 2) 1 1)
      (fun _ => some 50) (0, 0) = some (-1) := by
  refine ⟨by decide, by decide, by with_unfolding_all decide⟩

/-- C7: the minimum-area filter keeps exactly the rows whose computed
metric area is ≥ `min_area_m2`: every polygon with area < the floor is
absent from the filtered output, every polygon with area ≥ the floor is
present unchanged (the row, geometry included, is preserved as is), and
nothing else enters the output. -/
theorem C7_min_area_filter {G : Type} (rows : List (G × ℚ)) (minA : ℚ) :
    (∀ r ∈ rows, r.2 < minA → r ∉ area_filter minA rows) ∧
    (∀ r ∈ rows, minA ≤ r.2 → r ∈ area_filter minA rows) ∧
    (∀ r ∈ area_filter minA rows, r ∈ rows ∧ minA ≤ r.2) := by
  refine ⟨?_, ?_, ?_⟩
  · intro r _ hlt hmem
    rcases List.mem_filter.1 hmem with ⟨-, hge⟩
    rw [decide_eq_true_eq] at hge
    exact absurd hge (not_le.2 hlt)
  · intro r hr hge
    exact List.mem_filter.2 ⟨hr, decide_eq_true hge⟩
  · intro r hr
    rcases List.mem_filter.1 hr with ⟨h1, h2⟩
    rw [decide_eq_true_eq] at h2
    exact ⟨h1, h2⟩

/-- Witness for C7 on a concrete two-row collection with floor 10: the
area-5 row is dropped, the area-12 row is kept unchanged. -/
theorem C7_witness :
    ((37, (5 : ℚ)) ∉ area_filter 10 [((37 : ℕ), (5 : ℚ)), (4, 12)]) ∧
    ((4, (12 : ℚ)) ∈ area_filter 10 [((37 : ℕ), (5 : ℚ)), (4, 12)]) :=
  ⟨(C7_min_area_filter [((37 : ℕ), (5 : ℚ)), (4, 12)] 10).1 (37, 5)
      (by simp) (by norm_num),
   (C7_min_area_filter [((37 : ℕ), (5 : ℚ)), (4, 12)] 10).2.1 (4, 12)
      (by simp) (by norm_num)⟩

theorem flf_empty (h w : ℕ) (g : Pos → Option ℚ) (mmin pmin : ℚ) (u : Bool) :
    fast_label_filter h w ∅ g mmin pmin u = .ok (∅, 0, 0) := by
  unfold fast_label_filter
  rw [if_pos rfl]

theorem flf_error_of_not_bc {h w : ℕ} {A : Mask} {g : Pos → Option ℚ}
    {mmin pmin : ℚ} {u : Bool} (hA : A ≠ ∅) (hbc : ¬ broadcastOk w g A) :
    fast_label_filter h w A g mmin pmin u =
      .error "ValueError: operands could not be broadcast together" := by
  unfold fast_label_filter
  rw [if_neg hA, if_pos hbc]

theorem flf_ok_of_ne {h w : ℕ} {A : Mask} {g : Pos → Option ℚ}
    {mmin pmin : ℚ} {u : Bool} (hA : A ≠ ∅) (hbc : broadcastOk w g A) :
    fast_label_filter h w A g mmin pmin u =
      .ok (A.filter (fun p => keepFinalB h w g A mmin pmin u (comp A p)),
        (comps A).card -
          ((comps A).filter (fun C => keepFinalB h w g A mmin pmin u C)).card,
        if u then
          ((comps A).filter
            (fun C => keepMeanB h w g A mmin C && !scoredB g pmin C)).card
        else 0) := by
  unfold fast_label_filter
  rw [if_neg hA, if_neg (not_not_intro hbc)]

theorem keepFinalB_false (h w : ℕ) (g : Pos → Option ℚ) (A : Mask)
    (mmin pmin : ℚ) (C : Mask) :
    keepFinalB h w g A mmin pmin false C = keepMeanB h w g A mmin C := by
  simp [keepFinalB]

theorem finSum_of_zero {g : Pos → Option ℚ} {C : Mask}
    (hc : finCount g C = 0) : finSum g C = 0 := by
  unfold finCount at hc
  unfold finSum
  rw [Finset.card_eq_zero.1 hc, Finset.sum_empty]

theorem codeMean_of_zero {g : Pos → Option ℚ} {C : Mask}
    (hc : finCount g C = 0) : codeMean g C = 0 := by
  unfold codeMean
  rw [finSum_of_zero hc, zero_div]

theorem codeMean_of_pos {g : Pos → Option ℚ} {C : Mask}
    (hc : 0 < finCount g C) : codeMean g C = trueMean g C := by
  unfold codeMean trueMean
  rw [Nat.max_eq_left hc]

theorem scoredB_of_zero {g : Pos → Option ℚ} {pmin : ℚ} {C : Mask}
    (hc : finCount g C = 0) : scoredB g pmin C = false := by
  simp [scoredB, hc]

theorem finComps_eq_comps {g : Pos → Option ℚ} {A : Mask}
    (hfin : ∀ p ∈ A, 0 < finCount g (comp A p)) : finComps g A = comps A := by
  unfold finComps
  refine Finset.filter_true_of_mem ?_
  intro C hC
  rcases Finset.mem_image.1 hC with ⟨p, hp, rfl⟩
  exact hfin p hp

theorem broadcastOk_of_fin {w : ℕ} {g : Pos → Option ℚ} {A : Mask}
    (hfin : ∀ p ∈ A, 0 < finCount g (comp A p)) : broadcastOk w g A :=
  Or.inr (by rw [finComps_eq_comps hfin])

theorem finComps_ne_empty {g : Pos → Option ℚ} {A : Mask} (hA : A ≠ ∅)
    (hfin : ∀ p ∈ A, 0 < finCount g (comp A p)) : finComps g A ≠ ∅ := by
  obtain ⟨p, hp⟩ := Finset.nonempty_of_ne_empty hA
  have hmem : comp A p ∈ finComps g A := by
    rw [finComps_eq_comps hfin]
    exact Finset.mem_image_of_mem _ hp
  exact Finset.ne_empty_of_mem hmem

/-- C2 (amended): provided every connected component of the input mask owns
at least one finite-NDVI pixel (which is exactly the condition under which
the script's `keep &= (means >= mean_min)` broadcast never degenerates, see
the counterexample), the component filter in mean-only mode succeeds and
keeps a component exactly when its mean NDVI over finite pixels is
≥ `mean_min`; the returned mask is rebuilt by label membership (true at a
pixel iff its component survives, so components are kept or dropped in
full) and is a subset of the input mask. -/
theorem C2_mean_filter_membership (hh ww : ℕ) (A : Mask) (g : Pos → Option ℚ)
    (mmin pmin : ℚ)
    (hfin : ∀ p ∈ A, 0 < finCount g (comp A p)) :
    ∃ fm dm dp, fast_label_filter hh ww A g mmin pmin false = .ok (fm, dm, dp) ∧
      fm ⊆ A ∧
      (∀ p ∈ A, (p ∈ fm ↔ mmin ≤ trueMean g (comp A p))) ∧
      (∀ p q : Pos, q ∈ comp A p → (p ∈ fm ↔ q ∈ fm)) := by
  by_cases hA : A = ∅
  · subst hA
    refine ⟨∅, 0, 0, flf_empty hh ww g mmin pmin false, subset_rfl, ?_, ?_⟩
    · intro p hp
      exact absurd hp (Finset.not_mem_empty p)
    · intro p q hq
      rw [comp_of_not_mem (Finset.not_mem_empty p)] at hq
      exact absurd hq (Finset.not_mem_empty q)
  · have hbc : broadcastOk ww g A := broadcastOk_of_fin hfin
    have hfc : finComps g A ≠ ∅ := finComps_ne_empty hA hfin
    have hkeep : ∀ C : Mask, keepFinalB hh ww g A mmin pmin false C =
        decide (mmin ≤ codeMean g C) := by
      intro C
      rw [keepFinalB_false]
      unfold keepMeanB
      rw [if_neg hfc]
    refine ⟨_, _, _, flf_ok_of_ne hA hbc, Finset.filter_subset _ _, ?_, ?_⟩
    · intro p hp
      rw [Finset.mem_filter, hkeep, decide_eq_true_eq,
        codeMean_of_pos (hfin p hp)]
      exact ⟨fun hx => hx.2, fun hx => ⟨hp, hx⟩⟩
    · intro p q hq
      have hpA : p ∈ A := (mem_comp_iff.1 hq).1
      have hqA : q ∈ A := comp_subset A p hq
      have hcc : comp A q = comp A p := comp_eq_of_mem hq
      simp only [Finset.mem_filter, hcc]
      exact ⟨fun hx => ⟨hqA, hx.2⟩, fun hx => ⟨hpA, hx.2⟩⟩

/-- Witness for C2 (amended) on a 1×1 mask whose single component has one
finite pixel of NDVI 3/5 ≥ mean_min = 1/50. -/
theorem C2_witness :
    (∀ p ∈ ({((0 : ℤ), (0 : ℤ))} : Mask),
      0 < finCount (fun _ => some (3 / 5)) (comp {((0 : ℤ), (0 : ℤ))} p)) ∧
    (∃ fm dm dp, fast_label_filter 1 1 ({((0 : ℤ), (0 : ℤ))} : Mask)
        (fun _ => some (3 / 5)) (1 / 50) (1 / 20) false = .ok (fm, dm, dp) ∧
      fm ⊆ ({((0 : ℤ), (0 : ℤ))} : Mask) ∧
      (∀ p ∈ ({((0 : ℤ), (0 : ℤ))} : Mask),
        (p ∈ fm ↔ (1 : ℚ) / 50 ≤ trueMean (fun _ => some (3 / 5))
          (comp {((0 : ℤ), (0 : ℤ))} p))) ∧
      (∀ p q : Pos, q ∈ comp ({((0 : ℤ), (0 : ℤ))} : Mask) p →
        (p ∈ fm ↔ q ∈ fm))) :=
  ⟨by decide,
   C2_mean_filter_membership 1 1 {((0 : ℤ), (0 : ℤ))} (fun _ => some (3 / 5))
     (1 / 50) (1 / 20) (by decide)⟩

/-- C2 counterexample: the claim quantifies over every binary mask and NDVI
raster, but on a mask with two components where only the first (in label
order) owns a finite pixel, `np.bincount` sizes `means` by the greatest
label carrying a finite pixel (here 1) while `keep` has length `nlab + 1`
(here 3), and the in-place `keep &= (means >= mean_min)` raises a
broadcasting `ValueError` — the filter returns no mask at all. -/
theorem C2_counterexample :
    fast_label_filter 1 3 ({((0 : ℤ), (0 : ℤ)), ((0 : ℤ), (2 : ℤ))} : Mask)
      (fun p => if p = ((0 : ℤ), (0 : ℤ)) then some (1 / 2) else none)
      (1 / 50) (1 / 20) false =
      .error "ValueError: operands could not be broadcast together" := by
  decide

/-- C9 counterexample: the claim says a component with zero finite-NDVI
pixels is always dropped, for every `mean_min` and in both modes.  In
mean-only mode such a component is scored with `sums/max(counts,1) = 0`
(and, when no component has a finite pixel, the single `means` entry
broadcasts), so with `mean_min = 0` the test `0 >= 0` passes and the
component is KEPT: the filter returns the mask unchanged with zero drops in
both tallies. -/
theorem C9_counterexample :
    fast_label_filter 1 1 ({((0 : ℤ), (0 : ℤ))} : Mask) (fun _ => none) 0
      (1 / 20) false = .ok (({((0 : ℤ), (0 : ℤ))} : Mask), 0, 0) := by
  with_unfolding_all decide

/-- C9 (amended): a component `comp A p` with zero finite-NDVI pixels is
scored with the code mean 0 (`sums / max(counts, 1)`).  In mean+percentile
mode it is always dropped (the percentile loop drops every candidate whose
finite-value array is empty).  In mean-only mode, when some component has a
finite pixel (`finComps ≠ ∅`, the per-label branch), the zero-finite
component is kept iff `mean_min ≤ 0` — so it is NOT always dropped — and
the percentile-drop tally returned in mean-only mode is always 0, so when
the component is dropped it is counted in the mean tally, not the
percentile tally. -/
theorem C9_zero_finite_component (hh ww : ℕ) (A : Mask) (g : Pos → Option ℚ)
    (mmin pmin : ℚ) (p : Pos) (hp : p ∈ A)
    (hzero : finCount g (comp A p) = 0) :
    codeMean g (comp A p) = 0 ∧
    (∀ fm dm dp, fast_label_filter hh ww A g mmin pmin true = .ok (fm, dm, dp) →
      p ∉ fm) ∧
    (∀ fm dm dp, fast_label_filter hh ww A g mmin pmin false = .ok (fm, dm, dp) →
      finComps g A ≠ ∅ → (p ∈ fm ↔ mmin ≤ 0)) ∧
    (∀ fm dm dp, fast_label_filter hh ww A g mmin pmin false = .ok (fm, dm, dp) →
      dp = 0) := by
  have hA : A ≠ ∅ := Finset.ne_empty_of_mem hp
  refine ⟨codeMean_of_zero hzero, ?_, ?_, ?_⟩
  · intro fm dm dp hok
    by_cases hbc : broadcastOk ww g A
    · rw [flf_ok_of_ne hA hbc] at hok
      simp only [Except.ok.injEq, Prod.mk.injEq] at hok
      rw [← hok.1]
      intro hmem
      rcases Finset.mem_filter.1 hmem with ⟨-, hkeep⟩
      rw [keepFinalB, scoredB_of_zero hzero] at hkeep
      simp at hkeep
    · rw [flf_error_of_not_bc hA hbc] at hok
      exact absurd hok (by simp)
  · intro fm dm dp hok hfc
    by_cases hbc : broadcastOk ww g A
    · rw [flf_ok_of_ne hA hbc] at hok
      simp only [Except.ok.injEq, Prod.mk.injEq] at hok
      rw [← hok.1, Finset.mem_filter, keepFinalB_false]
      unfold keepMeanB
      rw [if_neg hfc, decide_eq_true_eq, codeMean_of_zero hzero]
      exact ⟨fun hx => hx.2, fun hx => ⟨hp, hx⟩⟩
    · rw [flf_error_of_not_bc hA hbc] at hok
      exact absurd hok (by simp)
  · intro fm dm dp hok
    by_cases hbc : broadcastOk ww g A
    · rw [flf_ok_of_ne hA hbc] at hok
      simp only [Except.ok.injEq, Prod.mk.injEq] at hok
      rw [← hok.2.2]
      simp
    · rw [flf_error_of_not_bc hA hbc] at hok
      exact absurd hok (by simp)

/-- Witness for C9 (amended) with `mean_min = 0`: the zero-finite component
at (0,0) is kept in mean-only mode. -/
theorem C9_witness :
    ((0 : ℤ), (0 : ℤ)) ∈ C9mask ∧
    finCount C9g (comp C9mask ((0 : ℤ), (0 : ℤ))) = 0 ∧
    (((0 : ℤ), (0 : ℤ)) ∈ C9mask ↔ (0 : ℚ) ≤ 0) := by
  have h9 := C9_zero_finite_component 1 3 C9mask C9g 0 (1 / 20)
    ((0 : ℤ), (0 : ℤ)) (by decide) (by decide)
  have hflf : fast_label_filter 1 3 C9mask C9g 0 (1 / 20) false =
      .ok (C9mask, 0, 0) := by
    with_unfolding_all decide
  exact ⟨by decide, by decide, h9.2.2.1 C9mask 0 0 hflf (by decide)⟩

theorem process_eq {G : Type}
    (rio : BandFile → ℕ → Option ℕ → ℕ → ℕ → (Pos → Option ℚ))
    (zoom : (Pos → Option ℚ) → ℕ × ℕ → ℕ × ℕ → (Pos → Option ℚ))
    (otsuFn : List ℚ → ℚ) (shapesFn : Mask → List G)
    (toMetric : G → G) (areaFn : G → ℚ) (toSrc : G → G)
    (redF nirF : BandFile) (cfg : Config)
    (ndvi : Pos → Option ℚ) (hh ww : ℕ)
    (hband : band_stage rio zoom redF nirF = (ndvi, hh, ww))
    (mask : Mask) (thr : ℚ)
    (hmb : make_binary_from_ndvi otsuFn hh ww ndvi cfg = (mask, thr)) :
    process_ndvi rio zoom otsuFn shapesFn toMetric areaFn toSrc redF nirF cfg =
      (if mask.card = 0 then
        .error "Aucun pixel sélectionné. Ajustez les paramètres." else
      match fast_label_filter hh ww mask ndvi cfg.mean_min cfg.p90_min
          (!cfg.FAST_MEAN_ONLY) with
      | .error e => .error e
      | .ok res =>
        if res.1.card = 0 then
          .error "Tous les objets filtrés. Ajustez les paramètres." else
        if (shapesFn res.1).isEmpty then .error "Vectorisation vide." else
        .ok (vector_area_stage toMetric areaFn toSrc cfg (shapesFn res.1))) := by
  unfold process_ndvi
  rw [hband]
  dsimp only
  rw [hmb]

/-- C4: the run raises an explicit error — so the shapefile write, which
only happens on an `.ok` result, is never reached — whenever the
classifier's binary mask is entirely false, or the component filter drops
every component, or vectorization yields zero polygons. -/
theorem C4_hard_failures {G : Type}
    (rio : BandFile → ℕ → Option ℕ → ℕ → ℕ → (Pos → Option ℚ))
    (zoom : (Pos → Option ℚ) → ℕ × ℕ → ℕ × ℕ → (Pos → Option ℚ))
    (otsuFn : List ℚ → ℚ) (shapesFn : Mask → List G)
    (toMetric : G → G) (areaFn : G → ℚ) (toSrc : G → G)
    (redF nirF : BandFile) (cfg : Config)
    (ndvi : Pos → Option ℚ) (hh ww : ℕ)
    (hband : band_stage rio zoom redF nirF = (ndvi, hh, ww))
    (mask : Mask) (thr : ℚ)
    (hmb : make_binary_from_ndvi otsuFn hh ww ndvi cfg = (mask, thr)) :
    (mask.card = 0 →
      process_ndvi rio zoom otsuFn shapesFn toMetric areaFn toSrc redF nirF cfg =
        .error "Aucun pixel sélectionné. Ajustez les paramètres.") ∧
    (∀ fm dm dp, mask.card ≠ 0 →
      fast_label_filter hh ww mask ndvi cfg.mean_min cfg.p90_min
        (!cfg.FAST_MEAN_ONLY) = .ok (fm, dm, dp) → fm.card = 0 →
      process_ndvi rio zoom otsuFn shapesFn toMetric areaFn toSrc redF nirF cfg =
        .error "Tous les objets filtrés. Ajustez les paramètres.") ∧
    (∀ fm dm dp, mask.card ≠ 0 →
      fast_label_filter hh ww mask ndvi cfg.mean_min cfg.p90_min
        (!cfg.FAST_MEAN_ONLY) = .ok (fm, dm, dp) → fm.card ≠ 0 →
      shapesFn fm = [] →
      process_ndvi rio zoom otsuFn shapesFn toMetric areaFn toSrc redF nirF cfg =
        .error "Vectorisation vide.") := by
  have hpe := process_eq rio zoom otsuFn shapesFn toMetric areaFn toSrc
    redF nirF cfg ndvi hh ww hband mask thr hmb
  refine ⟨?_, ?_, ?_⟩
  · intro h0
    rw [hpe, if_pos h0]
  · intro fm dm dp hne hok h0
    rw [hpe, if_neg hne, hok]
    dsimp only
    rw [if_pos h0]
  · intro fm dm dp hne hok h0 hempty
    rw [hpe, if_neg hne, hok]
    dsimp only
    rw [if_neg h0, hempty]
    simp

/-- Witness for C4 on a concrete run whose two bands are identical (NDVI 0
everywhere, below the fixed threshold 1/20): the classifier mask is empty
and the run aborts with the explicit no-pixel error. -/
theorem C4_witness :
    process_ndvi Wrio Wzoom (fun _ => 0) (fun _ => ([] : List ℕ))
      (fun g => g) (fun _ => (0 : ℚ)) (fun g => g) Wred Wred plainCfg =
      .error "Aucun pixel sélectionné. Ajustez les paramètres." := by
  have h := C4_hard_failures Wrio Wzoom (fun _ => 0) (fun _ => ([] : List ℕ))
    (fun g => g) (fun _ => (0 : ℚ)) (fun g => g) Wred Wred plainCfg
    (band_stage Wrio Wzoom Wred Wred).1
    (band_stage Wrio Wzoom Wred Wred).2.1
    (band_stage Wrio Wzoom Wred Wred).2.2 rfl
    (make_binary_from_ndvi (fun _ => 0) (band_stage Wrio Wzoom Wred Wred).2.1
      (band_stage Wrio Wzoom Wred Wred).2.2 (band_stage Wrio Wzoom Wred Wred).1
      plainCfg).1
    (make_binary_from_ndvi (fun _ => 0) (band_stage Wrio Wzoom Wred Wred).2.1
      (band_stage Wrio Wzoom Wred Wred).2.2 (band_stage Wrio Wzoom Wred Wred).1
      plainCfg).2 rfl
  exact h.1 (by with_unfolding_all decide)

theorem process_ok_inv {G : Type}
    (rio : BandFile → ℕ → Option ℕ → ℕ → ℕ → (Pos → Option ℚ))
    (zoom : (Pos → Option ℚ) → ℕ × ℕ → ℕ × ℕ → (Pos → Option ℚ))
    (otsuFn : List ℚ → ℚ) (shapesFn : Mask → List G)
    (toMetric : G → G) (areaFn : G → ℚ) (toSrc : G → G)
    (redF nirF : BandFile) (cfg : Config) (out : RunOutput G)
    (hok : process_ndvi rio zoom otsuFn shapesFn toMetric areaFn toSrc
      redF nirF cfg = .ok out) :
    ∃ fm : Mask, shapesFn fm ≠ [] ∧
      out = vector_area_stage toMetric areaFn toSrc cfg (shapesFn fm) := by
  rw [process_eq rio zoom otsuFn shapesFn toMetric areaFn toSrc redF nirF cfg
    (band_stage rio zoom redF nirF).1 (band_stage rio zoom redF nirF).2.1
    (band_stage rio zoom redF nirF).2.2 rfl
    (make_binary_from_ndvi otsuFn (band_stage rio zoom redF nirF).2.1
      (band_stage rio zoom redF nirF).2.2 (band_stage rio zoom redF nirF).1 cfg).1
    (make_binary_from_ndvi otsuFn (band_stage rio zoom redF nirF).2.1
      (band_stage rio zoom redF nirF).2.2 (band_stage rio zoom redF nirF).1 cfg).2
    rfl] at hok
  split at hok
  · exact absurd hok (by simp)
  · split at hok
    · exact absurd hok (by simp)
    · rename_i res heq
      split at hok
      · exact absurd hok (by simp)
      · split at hok
        · exact absurd hok (by simp)
        · rename_i hempty
          refine ⟨res.1, ?_, (Except.ok.inj hok).symm⟩
          intro hnil
          apply hempty
          rw [hnil]
          rfl

theorem vector_area_stage_spec {G : Type} (toMetric : G → G) (areaFn : G → ℚ)
    (toSrc : G → G) (cfg : Config) (gdf : List G)
    (hadd : cfg.ADD_TOTAL_FIELD = true)
    (hne : (vector_area_stage toMetric areaFn toSrc cfg gdf).features ≠ []) :
    (vector_area_stage toMetric areaFn toSrc cfg gdf).totalValue =
      some (roundTo cfg.TOTAL_DECIMALS
        (((vector_area_stage toMetric areaFn toSrc cfg gdf).features.map
          (fun f => f.area_m2 / 1000000)).sum)) ∧
    (∀ f ∈ (vector_area_stage toMetric areaFn toSrc cfg gdf).features,
      f.tot = (vector_area_stage toMetric areaFn toSrc cfg gdf).totalValue) ∧
    (vector_area_stage toMetric areaFn toSrc cfg gdf).totalFieldName =
      some (cfg.TOTAL_FIELD_NAME.take 10) ∧
    (cfg.TOTAL_FIELD_NAME.take 10).length ≤ 10 := by
  have hKne : area_filter cfg.min_area_m2 (metric_rows toMetric areaFn gdf) ≠ [] := by
    intro h0
    apply hne
    show (area_filter cfg.min_area_m2 (metric_rows toMetric areaFn gdf)).map _ = []
    rw [h0]
    rfl
  obtain ⟨r0, K0, hK⟩ :=
    List.exists_cons_of_ne_nil hKne
  have hfalse : (area_filter cfg.min_area_m2 (metric_rows toMetric areaFn gdf)).isEmpty
      = false := by rw [hK]; rfl
  have hrt : run_total cfg (area_filter cfg.min_area_m2 (metric_rows toMetric areaFn gdf)) =
      some (roundTo cfg.TOTAL_DECIMALS
        (((area_filter cfg.min_area_m2 (metric_rows toMetric areaFn gdf)).map
          (fun r => r.2 / 1000000)).sum)) := by
    unfold run_total
    rw [if_pos]
    rw [hadd, hfalse]
    rfl
  have hmap : ((vector_area_stage toMetric areaFn toSrc cfg gdf).features.map
      (fun f => f.area_m2 / 1000000)) =
      ((area_filter cfg.min_area_m2 (metric_rows toMetric areaFn gdf)).map
        (fun r => r.2 / 1000000)) := by
    show ((area_filter cfg.min_area_m2 (metric_rows toMetric areaFn gdf)).map _).map _ = _
    rw [List.map_map]
    rfl
  refine ⟨?_, ?_, ?_, ?_⟩
  · show run_total cfg _ = _
    rw [hmap, hrt]
  · intro f hf
    rcases List.mem_map.1 hf with ⟨r, hr, rfl⟩
    rfl
  · show (run_total cfg _).map _ = _
    rw [hrt]
    rfl
  · rw [List.length_take]
    exact min_le_left _ _

/-- C8 (amended): on every successful run with `ADD_TOTAL_FIELD` and a
nonempty feature set, all output features carry the same total value, the
total-field name is the configured name truncated to at most 10
characters, and the total equals the sum of the UNROUNDED per-feature
`area_km2 = area_m2 / 1e6` values, rounded to `TOTAL_DECIMALS`.  Because
the stored `area_km2` attributes are themselves rounded AFTER the total is
computed (line 430 follows lines 423-427), the total need not equal the
rounded sum of the stored attributes — see the counterexample. -/
theorem C8_total_field {G : Type}
    (rio : BandFile → ℕ → Option ℕ → ℕ → ℕ → (Pos → Option ℚ))
    (zoom : (Pos → Option ℚ) → ℕ × ℕ → ℕ × ℕ → (Pos → Option ℚ))
    (otsuFn : List ℚ → ℚ) (shapesFn : Mask → List G)
    (toMetric : G → G) (areaFn : G → ℚ) (toSrc : G → G)
    (redF nirF : BandFile) (cfg : Config) (out : RunOutput G)
    (hok : process_ndvi rio zoom otsuFn shapesFn toMetric areaFn toSrc
      redF nirF cfg = .ok out)
    (hadd : cfg.ADD_TOTAL_FIELD = true) (hne : out.features ≠ []) :
    out.totalValue = some (roundTo cfg.TOTAL_DECIMALS
      ((out.features.map (fun f => f.area_m2 / 1000000)).sum)) ∧
    (∀ f ∈ out.features, f.tot = out.totalValue) ∧
    out.totalFieldName = some (cfg.TOTAL_FIELD_NAME.take 10) ∧
    (cfg.TOTAL_FIELD_NAME.take 10).length ≤ 10 := by
  obtain ⟨fm, -, rfl⟩ := process_ok_inv rio zoom otsuFn shapesFn toMetric
    areaFn toSrc redF nirF cfg out hok
  exact vector_area_stage_spec toMetric areaFn toSrc cfg (shapesFn fm) hadd hne

theorem C8_floor_a : (⌊(4 : ℚ) / 5⌋ : ℤ) = 0 := by
  rw [Int.floor_eq_iff]; norm_num

theorem C8_floor_b : (⌊(2 : ℚ) / 5⌋ : ℤ) = 0 := by
  rw [Int.floor_eq_iff]; norm_num

theorem C8_round_total : roundTo 4 ((1 : ℚ) / 12500) = 1 / 10000 := by
  unfold roundTo roundHalfEven
  have hx : (1 : ℚ) / 12500 * 10 ^ 4 = 4 / 5 := by norm_num
  rw [hx, C8_floor_a]
  rw [if_neg (by norm_num), if_pos (by norm_num)]
  norm_num

theorem C8_round_feature : roundTo 4 ((40 : ℚ) / 1000000) = 0 := by
  unfold roundTo roundHalfEven
  have hx : (40 : ℚ) / 1000000 * 10 ^ 4 = 2 / 5 := by norm_num
  rw [hx, C8_floor_b]
  rw [if_pos (by norm_num)]
  norm_num

theorem C8_run_total :
    run_total C8cfg [((0 : ℕ), (40 : ℚ)), (1, 40)] = some (1 / 10000) := by
  unfold run_total
  rw [if_pos (show (C8cfg.ADD_TOTAL_FIELD &&
    ! ([((0 : ℕ), (40 : ℚ)), (1, 40)]).isEmpty) = true from rfl)]
  have hsum : (([((0 : ℕ), (40 : ℚ)), (1, 40)]).map (fun r => r.2 / 1000000)).sum =
      (1 : ℚ) / 12500 := by
    simp only [List.map_cons, List.map_nil, List.sum_cons, List.sum_nil]
    norm_num
  rw [hsum]
  rw [show C8cfg.TOTAL_DECIMALS = 4 from rfl, C8_round_total]

theorem C8_vas :
    vector_area_stage (fun g => g) (fun _ => (40 : ℚ)) (fun g => g) C8cfg
      ([0, 1] : List ℕ) =
      { features := [
          { geom := 0, area_m2 := 40, area_km2 := 0, tot := some (1 / 10000) },
          { geom := 1, area_m2 := 40, area_km2 := 0, tot := some (1 / 10000) }]
        totalFieldName := some ['T', 'O', 'T', '_', 'K', 'M', '2']
        totalValue := some (1 / 10000) } := by
  have ha : area_filter C8cfg.min_area_m2
      (metric_rows (fun g => g) (fun _ => (40 : ℚ)) ([0, 1] : List ℕ)) =
      [((0 : ℕ), (40 : ℚ)), (1, 40)] := by
    with_unfolding_all decide
  unfold vector_area_stage
  rw [ha, C8_run_total]
  simp only [List.map_cons, List.map_nil]
  rw [show C8cfg.TOTAL_DECIMALS = 4 from rfl, C8_round_feature]
  rfl

set_option maxRecDepth 4000 in
theorem C8_run_ok :
    process_ndvi Wrio Wzoom (fun _ => 0) (fun _ => [0, 1])
      (fun g => g) (fun _ => (40 : ℚ)) (fun g => g) Wred Wnir C8cfg =
      .ok C8out := by
  have hpe := process_eq Wrio Wzoom (fun _ => 0) (fun _ => [0, 1])
    (fun g => g) (fun _ => (40 : ℚ)) (fun g => g) Wred Wnir C8cfg
    (band_stage Wrio Wzoom Wred Wnir).1 1 1 rfl
    (make_binary_from_ndvi (fun _ => 0) 1 1
      (band_stage Wrio Wzoom Wred Wnir).1 C8cfg).1
    (make_binary_from_ndvi (fun _ => 0) 1 1
      (band_stage Wrio Wzoom Wred Wnir).1 C8cfg).2 rfl
  have hflf : fast_label_filter 1 1
      (make_binary_from_ndvi (fun _ => 0) 1 1
        (band_stage Wrio Wzoom Wred Wnir).1 C8cfg).1
      (band_stage Wrio Wzoom Wred Wnir).1 C8cfg.mean_min C8cfg.p90_min
      (!C8cfg.FAST_MEAN_ONLY) =
      .ok (({((0 : ℤ), (0 : ℤ))} : Mask), 0, 0) := by
    with_unfolding_all decide
  rw [hpe, if_neg (by with_unfolding_all decide), hflf]
  dsimp only
  rw [if_neg (by decide)]
  rw [if_neg (by decide)]
  rw [C8_vas]
  rfl

/-- C8 counterexample: a run with two surviving polygons of 40 m² each
(`min_area_m2 = 0`, `TOTAL_DECIMALS = 4`).  The total field is computed
from the unrounded km² values: round(0.00004 + 0.00004, 4) = 0.0001.  The
stored `area_km2` attributes are rounded afterwards to 0.0 each, so the
sum of the output features' `area_km2` attributes, rounded to 4 decimals,
is 0 ≠ 0.0001: the claim's equation fails on the written attribute table. -/
theorem C8_counterexample :
    process_ndvi Wrio Wzoom (fun _ => 0) (fun _ => [0, 1])
      (fun g => g) (fun _ => (40 : ℚ)) (fun g => g) Wred Wnir C8cfg =
      .ok C8out ∧
    (C8out.features.map (fun f => f.area_km2)) = [0, 0] ∧
    roundTo 4 ([(0 : ℚ), 0].sum) = 0 ∧
    C8out.totalValue = some (1 / 10000) ∧ (0 : ℚ) ≠ 1 / 10000 := by
  refine ⟨C8_run_ok, rfl, ?_, rfl, ?_⟩
  · have hsum : ([(0 : ℚ), 0].sum) = 0 := by norm_num
    rw [hsum]
    unfold roundTo roundHalfEven
    norm_num
  · norm_num

/-- Witness for C8 (amended) on the concrete counterexample run: the total
value is the rounded sum of the unrounded `area_m2 / 1e6` values, every
feature carries it, and the field name is the 7-character default, within
the 10-character bound. -/
theorem C8_witness :
    C8out.totalValue = some (roundTo C8cfg.TOTAL_DECIMALS
      ((C8out.features.map (fun f => f.area_m2 / 1000000)).sum)) ∧
    (∀ f ∈ C8out.features, f.tot = C8out.totalValue) ∧
    C8out.totalFieldName = some (C8cfg.TOTAL_FIELD_NAME.take 10) ∧
    (C8cfg.TOTAL_FIELD_NAME.take 10).length ≤ 10 :=
  C8_total_field Wrio Wzoom (fun _ => 0) (fun _ => [0, 1])
    (fun g => g) (fun _ => (40 : ℚ)) (fun g => g) Wred Wnir C8cfg C8out
    C8_run_ok rfl (by simp [C8out])

/-- C10: when vectorization produces at least one polygon but every
polygon's metric area is below `min_area_m2`, the pipeline raises no error
at the area-filter stage: it proceeds past the filter with an empty
feature set and reaches the shapefile write (`.ok`) with zero features
(and, the feature list being empty, no total column either) — the hard
failures guard only the classifier, component-filter and vectorizer
stages. -/
theorem C10_small_polygons_no_failure {G : Type}
    (rio : BandFile → ℕ → Option ℕ → ℕ → ℕ → (Pos → Option ℚ))
    (zoom : (Pos → Option ℚ) → ℕ × ℕ → ℕ × ℕ → (Pos → Option ℚ))
    (otsuFn : List ℚ → ℚ) (shapesFn : Mask → List G)
    (toMetric : G → G) (areaFn : G → ℚ) (toSrc : G → G)
    (redF nirF : BandFile) (cfg : Config)
    (ndvi : Pos → Option ℚ) (hh ww : ℕ)
    (hband : band_stage rio zoom redF nirF = (ndvi, hh, ww))
    (mask : Mask) (thr : ℚ)
    (hmb : make_binary_from_ndvi otsuFn hh ww ndvi cfg = (mask, thr))
    (hmask : mask.card ≠ 0) (fm : Mask) (dm dp : ℕ)
    (hflf : fast_label_filter hh ww mask ndvi cfg.mean_min cfg.p90_min
      (!cfg.FAST_MEAN_ONLY) = .ok (fm, dm, dp))
    (hfm : fm.card ≠ 0) (hgdf : shapesFn fm ≠ [])
    (hsmall : ∀ g0 ∈ shapesFn fm, areaFn (toMetric g0) < cfg.min_area_m2) :
    process_ndvi rio zoom otsuFn shapesFn toMetric areaFn toSrc redF nirF cfg =
      .ok { features := [], totalFieldName := none, totalValue := none } := by
  have hpe := process_eq rio zoom otsuFn shapesFn toMetric areaFn toSrc
    redF nirF cfg ndvi hh ww hband mask thr hmb
  rw [hpe, if_neg hmask, hflf]
  dsimp only
  rw [if_neg hfm]
  obtain ⟨a0, t0, hcons⟩ := List.exists_cons_of_ne_nil hgdf
  have hempty : (shapesFn fm).isEmpty = false := by rw [hcons]; rfl
  rw [if_neg (by rw [hempty]; exact Bool.false_ne_true)]
  have hkept : area_filter cfg.min_area_m2
      (metric_rows toMetric areaFn (shapesFn fm)) = [] := by
    unfold area_filter
    rw [List.filter_eq_nil_iff]
    intro r hr
    rcases List.mem_map.1 hr with ⟨g0, hg0, rfl⟩
    simp only [decide_eq_true_eq]
    exact not_le.2 (hsmall g0 hg0)
  unfold vector_area_stage
  rw [hkept]
  simp [run_total]

/-- Witness for C10 on a concrete run: the 1×1 scene passes the classifier
and component filter, one polygon of 40 m² is vectorized, it falls below
the default 3000 m² floor, and the run completes with an `.ok` result
carrying zero features and no error. -/
theorem C10_witness :
    process_ndvi Wrio Wzoom (fun _ => 0) (fun _ => [0])
      (fun g => g) (fun _ => (40 : ℚ)) (fun g => g) Wred Wnir plainCfg =
      .ok { features := [], totalFieldName := none, totalValue := none } := by
  have hflf : fast_label_filter 1 1
      (make_binary_from_ndvi (fun _ => 0) 1 1
        (band_stage Wrio Wzoom Wred Wnir).1 plainCfg).1
      (band_stage Wrio Wzoom Wred Wnir).1 plainCfg.mean_min plainCfg.p90_min
      (!plainCfg.FAST_MEAN_ONLY) =
      .ok (({((0 : ℤ), (0 : ℤ))} : Mask), 0, 0) := by
    with_unfolding_all decide
  exact C10_small_polygons_no_failure Wrio Wzoom (fun _ => 0) (fun _ => [0])
    (fun g => g) (fun _ => (40 : ℚ)) (fun g => g) Wred Wnir plainCfg
    (band_stage Wrio Wzoom Wred Wnir).1 1 1 rfl
    (make_binary_from_ndvi (fun _ => 0) 1 1
      (band_stage Wrio Wzoom Wred Wnir).1 plainCfg).1
    (make_binary_from_ndvi (fun _ => 0) 1 1
      (band_stage Wrio Wzoom Wred Wnir).1 plainCfg).2 rfl
    (by with_unfolding_all decide)
    ({((0 : ℤ), (0 : ℤ))} : Mask) 0 0 hflf
    (by decide) (by decide)
    (by
      intro g0 _
      show (40 : ℚ) < plainCfg.min_area_m2
      with_unfolding_all decide)
